import Mathlib

/-!
Verification of the `dct2` minimal Bolt client (files `dct2/messaging.py`,
`dct2/__init__.py`).  Bytes are modelled as natural numbers below 256 and byte
buffers as `List Nat`.  Python strings are represented by their UTF-8 byte
sequences (`encode`/`decode` are mutually inverse on valid strings, so the
codec sees only the bytes).  Python dicts are represented as key/value pair
lists in insertion order.  Fallible Python code (exceptions) is modelled with
`Option`/`Except`.
-/

set_option maxHeartbeats 1000000

/-- Big-endian bytes of `n`, `k` bytes wide (as produced by `struct.pack` with
an unsigned big-endian format, value taken mod 2^(8k)). -/
def beBytes : Nat → Nat → List Nat
  | 0, _ => []
  | k + 1, n => beBytes k (n / 256) ++ [n % 256]

/-- Big-endian value of a byte list (as read by `struct.unpack` unsigned). -/
def fromBe (bs : List Nat) : Nat := bs.foldl (fun a b => a * 256 + b) 0

/-- Two's-complement big-endian bytes of the integer `v`, `k` bytes wide:
the encoding written by `struct.pack` with a signed big-endian format. -/
def sbe (k : Nat) (v : Int) : List Nat := beBytes k (Int.toNat (v % ((2 : Int) ^ (8 * k))))

/-- Signed big-endian decode of `k` bytes (`struct.unpack` signed formats). -/
def sdec (k : Nat) (bs : List Nat) : Int :=
  if fromBe bs < 2 ^ (8 * k - 1) then (fromBe bs : Int) else (fromBe bs : Int) - 2 ^ (8 * k)

/-- Reading `n` bytes from a buffer: `BytesIO.read(n)` followed by the
`struct.unpack` length check; fails when fewer than `n` bytes remain. -/
def readN (n : Nat) (bs : List Nat) : Option (List Nat × List Nat) :=
  if n ≤ bs.length then some (bs.take n, bs.drop n) else none

/-- The PackStream value domain of `SimplePacker.pack` (messaging.py 169-181):
None, int, str (as UTF-8 bytes), list, dict (as ordered key/value pairs). -/
inductive Value where
  | null : Value
  | int (i : Int) : Value
  | str (s : List Nat) : Value
  | list (xs : List Value) : Value
  | dict (ps : List (Value × Value)) : Value

/-- `SimplePacker._pack_int` (messaging.py 117-133): smallest-width ladder,
`OverflowError` (`none`) outside the 64-bit signed range. -/
def packInt (v : Int) : Option (List Nat) :=
  if -0x10 ≤ v ∧ v < 0x80 then some (sbe 1 v)
  else if -0x80 ≤ v ∧ v < -0x10 then some (0xC8 :: sbe 1 v)
  else if -0x8000 ≤ v ∧ v < 0x8000 then some (0xC9 :: sbe 2 v)
  else if -0x80000000 ≤ v ∧ v < 0x80000000 then some (0xCA :: sbe 4 v)
  else if -0x8000000000000000 ≤ v ∧ v < 0x8000000000000000 then some (0xCB :: sbe 8 v)
  else none

/-- `SimplePacker._pack_header` (messaging.py 135-148): tiny / 8-bit / 16-bit /
32-bit container headers, `OverflowError` (`none`) for sizes of 2^32 or more. -/
def packHeader (size t s m l : Nat) : Option (List Nat) :=
  if size < 0x10 then some [t + size]
  else if size < 0x100 then some [s, size]
  else if size < 0x10000 then some (m :: beBytes 2 size)
  else if size < 0x100000000 then some (l :: beBytes 4 size)
  else none

/-- `SimplePacker._pack_str` (messaging.py 150-154) on the UTF-8 bytes. -/
def packStr (s : List Nat) : Option (List Nat) :=
  (packHeader s.length 0x80 0xD0 0xD1 0xD2).map (fun h => h ++ s)

mutual

/-- `SimplePacker.pack` (messaging.py 169-181). -/
def pack : Value → Option (List Nat)
  | .null => some [0xC0]
  | .int v => packInt v
  | .str s => packStr s
  | .list xs => do
      let h ← packHeader xs.length 0x90 0xD4 0xD5 0xD6
      let body ← packList xs
      pure (h ++ body)
  | .dict ps => do
      let h ← packHeader ps.length 0xA0 0xD8 0xD9 0xDA
      let body ← packPairs ps
      pure (h ++ body)

/-- Body of `SimplePacker._pack_list` (messaging.py 159-160). -/
def packList : List Value → Option (List Nat)
  | [] => some []
  | x :: xs => do
      let a ← pack x
      let b ← packList xs
      pure (a ++ b)

/-- Body of `SimplePacker._pack_dict` (messaging.py 165-167): each key goes
through `_pack_str`, which fails (`AttributeError`) on a non-string key. -/
def packPairs : List (Value × Value) → Option (List Nat)
  | [] => some []
  | (k, v) :: ps => do
      let ks ← match k with
        | .str s => packStr s
        | _ => none
      let a ← pack v
      let b ← packPairs ps
      pure (ks ++ a ++ b)

end

/-- Unpacking `k` consecutive values (`SimpleUnpacker._unpack_list`,
messaging.py 223-224), parameterised by the value unpacker. -/
def unpackMany (u : List Nat → Option (Value × List Nat)) :
    Nat → List Nat → Option (List Value × List Nat)
  | 0, bs => some ([], bs)
  | k + 1, bs =>
    match u bs with
    | none => none
    | some (v, bs1) =>
      match unpackMany u k bs1 with
      | none => none
      | some (vs, bs2) => some (v :: vs, bs2)

/-- Unpacking `k` key/value pairs (`SimpleUnpacker._unpack_dict`,
messaging.py 226-227); the key is unpacked before its value, as in a
Python 3.8+ dict comprehension. -/
def unpackPairs (u : List Nat → Option (Value × List Nat)) :
    Nat → List Nat → Option (List (Value × Value) × List Nat)
  | 0, bs => some ([], bs)
  | k + 1, bs =>
    match u bs with
    | none => none
    | some (kv, bs1) =>
      match u bs1 with
      | none => none
      | some (vv, bs2) =>
        match unpackPairs u k bs2 with
        | none => none
        | some (ps, bs3) => some ((kv, vv) :: ps, bs3)

/-- `SimpleUnpacker.unpack` (messaging.py 229-279), with a fuel argument for
termination; any fuel of at least `bs.length + 1` suffices since every call
consumes the marker byte before recursing.  The branch order, including the
three unreachable dictionary branches that re-test the list markers
`0xD4`/`0xD5`/`0xD6` (messaging.py 271-276), mirrors the source; `none` is the
final `ValueError` (unsupported marker) or any mid-value short read. -/
def unpackV : Nat → List Nat → Option (Value × List Nat)
  | 0, _ => none
  | fuel + 1, bs =>
    match bs with
    | [] => none
    | marker :: r =>
      if marker = 0xC0 then some (.null, r)
      else if marker < 0x80 then some (.int marker, r)
      else if 0xF0 ≤ marker then some (.int ((marker : Int) - 0x100), r)
      else if marker = 0xC8 then do
        let (b, r1) ← readN 1 r
        pure (.int (sdec 1 b), r1)
      else if marker = 0xC9 then do
        let (b, r1) ← readN 2 r
        pure (.int (sdec 2 b), r1)
      else if marker = 0xCA then do
        let (b, r1) ← readN 4 r
        pure (.int (sdec 4 b), r1)
      else if marker = 0xCB then do
        let (b, r1) ← readN 8 r
        pure (.int (sdec 8 b), r1)
      else if 0x80 ≤ marker ∧ marker ≤ 0x8F then do
        let (s, r1) ← readN (marker % 16) r
        pure (.str s, r1)
      else if marker = 0xD0 then do
        let (szb, r1) ← readN 1 r
        let (s, r2) ← readN (fromBe szb) r1
        pure (.str s, r2)
      else if marker = 0xD1 then do
        let (szb, r1) ← readN 2 r
        let (s, r2) ← readN (fromBe szb) r1
        pure (.str s, r2)
      else if marker = 0xD2 then do
        let (szb, r1) ← readN 4 r
        let (s, r2) ← readN (fromBe szb) r1
        pure (.str s, r2)
      else if 0x90 ≤ marker ∧ marker ≤ 0x9F then do
        let (vs, r1) ← unpackMany (unpackV fuel) (marker % 16) r
        pure (.list vs, r1)
      else if marker = 0xD4 then do
        let (szb, r1) ← readN 1 r
        let (vs, r2) ← unpackMany (unpackV fuel) (fromBe szb) r1
        pure (.list vs, r2)
      else if marker = 0xD5 then do
        let (szb, r1) ← readN 2 r
        let (vs, r2) ← unpackMany (unpackV fuel) (fromBe szb) r1
        pure (.list vs, r2)
      else if marker = 0xD6 then do
        let (szb, r1) ← readN 4 r
        let (vs, r2) ← unpackMany (unpackV fuel) (fromBe szb) r1
        pure (.list vs, r2)
      else if 0xA0 ≤ marker ∧ marker ≤ 0xAF then do
        let (ps, r1) ← unpackPairs (unpackV fuel) (marker % 16) r
        pure (.dict ps, r1)
      else if marker = 0xD4 then do
        let (szb, r1) ← readN 1 r
        let (ps, r2) ← unpackPairs (unpackV fuel) (fromBe szb) r1
        pure (.dict ps, r2)
      else if marker = 0xD5 then do
        let (szb, r1) ← readN 2 r
        let (ps, r2) ← unpackPairs (unpackV fuel) (fromBe szb) r1
        pure (.dict ps, r2)
      else if marker = 0xD6 then do
        let (szb, r1) ← readN 4 r
        let (ps, r2) ← unpackPairs (unpackV fuel) (fromBe szb) r1
        pure (.dict ps, r2)
      else none

/-- One chunk on the wire: `MessageWriter._write_chunk` (messaging.py 33-36),
a 16-bit big-endian length followed by the data. -/
def writeChunk (data : List Nat) : List Nat := beBytes 2 data.length ++ data

/-- The chunk payloads of one message payload: the slices
`data[offset:offset+32767]` for `offset in range(0, len(data), 32767)`
(messaging.py 45-47). -/
def chunkPayloads (data : List Nat) : List (List Nat) :=
  (List.range ((data.length + 32766) / 32767)).map
    (fun i => (data.drop (32767 * i)).take 32767)

/-- Number of non-terminator chunks emitted for a payload. -/
def numChunks (data : List Nat) : Nat := (data.length + 32766) / 32767

/-- The wire bytes emitted for one payload by `MessageWriter.write_message`
(messaging.py 45-48): each chunk length-prefixed, then the zero-length
terminator chunk. -/
def chunkStream (payload : List Nat) : List Nat :=
  ((chunkPayloads payload).map writeChunk).flatten ++ writeChunk []

/-- The chunk lengths visible on the wire for one payload, terminator
included. -/
def emittedChunkSizes (payload : List Nat) : List Nat :=
  (chunkPayloads payload).map List.length ++ [0]

/-- The chunk-accumulation loop of `MessageReader.read_message`
(messaging.py 64-80): read a 16-bit length, then that many bytes, until a
zero-length chunk; returns the reassembled payload and the unread rest.  The
fuel argument stands for the unbounded `while` loop; every iteration consumes
at least two bytes, so fuel `bs.length + 1` always suffices. -/
def readChunks : Nat → List Nat → List Nat → Option (List Nat × List Nat)
  | 0, _, _ => none
  | fuel + 1, acc, bs =>
    match readN 2 bs with
    | none => none
    | some (szb, r1) =>
      if fromBe szb = 0 then some (acc, r1)
      else
        match readN (fromBe szb) r1 with
        | none => none
        | some (chunk, r2) => readChunks fuel (acc ++ chunk) r2

/-- Reassembly of one framed payload from the inbound stream. -/
def readMessagePayload (bs : List Nat) : Option (List Nat × List Nat) :=
  readChunks (bs.length + 1) [] bs

/-- The structure parse of `MessageReader.read_message` (messaging.py 81-85)
applied to a reassembled payload: `_, n = divmod(first, 0x10)` takes the LOW
nibble as the field count, the next byte is the tag, then `n` values are
unpacked. -/
def parseMessagePayload (payload : List Nat) : Option (Nat × List Value) :=
  match payload with
  | b :: tag :: body =>
    match unpackMany (unpackV (body.length + 1)) (b % 16) body with
    | some (vs, _) => some (tag, vs)
    | none => none
  | _ => none

/-- `MessageWriter.write_message` (messaging.py 38-48): structure header
`0xB0 + len(fields)`, tag byte, packed fields, all chunked. -/
def writeMessageBytes (tag : Nat) (fields : List Value) : Option (List Nat) := do
  let bodies ← fields.mapM pack
  pure (chunkStream ((0xB0 + fields.length) :: tag :: bodies.flatten))

/-- `BoltResponse` (dct2/__init__.py 205-237): a record queue, a status
(0 = not done, 1 = success — the only statuses the class defines) and a
metadata map. -/
structure Response where
  records : List Value
  status : Nat
  metadata : List (Value × Value)

/-- The response constructed by `BoltResponse.__init__`. -/
def freshResponse : Response := ⟨[], 0, []⟩

/-- The session's inbound-side state for `Bolt._fetch`: the pending-response
queue `self.responses`, plus a history field `finished` recording each
response at the moment it is popped from the queue, in pop order.  The source
discards popped responses from the queue (callers keep their own references);
`finished` is a pure observer added for stating ordering properties. -/
structure SessF where
  queue : List Response
  finished : List Response

/-- `Bolt._fetch` (dct2/__init__.py 157-168) applied to one already-read
message `(tag, fields)`.  `self.responses[0]` raises `IndexError` on an empty
queue (`none`); tag `0x70` runs `set_success(**fields[0])` (fails unless
`fields[0]` is a dict) and pops the head; tag `0x71` appends `fields[0]` to
the head's records; EVERY OTHER TAG falls through both branches and leaves
the state untouched. -/
def SessF.fetch (st : SessF) (tag : Nat) (fields : List Value) : Option SessF :=
  match st.queue with
  | [] => none
  | r :: rest =>
    if tag = 0x70 then
      match fields with
      | Value.dict ps :: _ =>
          some ⟨rest, st.finished ++ [{ r with status := 1, metadata := r.metadata ++ ps }]⟩
      | _ => none
    else if tag = 0x71 then
      match fields with
      | v :: _ => some ⟨{ r with records := r.records ++ [v] } :: rest, st.finished⟩
      | _ => none
    else
      some st

/-- Iterated `Bolt._fetch` over a list of inbound messages. -/
def runF : List (Nat × List Value) → SessF → Option SessF
  | [], st => some st
  | m :: ms, st =>
    match SessF.fetch st m.1 m.2 with
    | none => none
    | some st1 => runF ms st1

/-- Modelled from the spec: the transport facade `Wire` of §4.A — the file
`dct2/wire.py` belongs to the repository but is not among the sources.  Per
the spec, `write` accumulates bytes, `send` flushes the accumulated bytes,
`read(n)` returns exactly `n` bytes (failing on EOF), `close` marks the wire
closed, and `closed`/`broken` are observable flags. -/
structure Wire where
  inStream : List Nat
  outBuf : List Nat
  sent : List Nat
  closed : Bool
  broken : Bool

def Wire.write (w : Wire) (bs : List Nat) : Wire := { w with outBuf := w.outBuf ++ bs }

def Wire.send (w : Wire) : Wire := { w with outBuf := [], sent := w.sent ++ w.outBuf }

def Wire.readBytes (w : Wire) (n : Nat) : Option (List Nat × Wire) :=
  if n ≤ w.inStream.length then
    some (w.inStream.take n, { w with inStream := w.inStream.drop n })
  else none

def Wire.close (w : Wire) : Wire := { w with closed := true }

/-- The session state of `Bolt.__init__` (dct2/__init__.py 73-77): the wire
and the pending-response queue. -/
structure Bolt where
  wire : Wire
  responses : List Response

/-- `Bolt._write_request` (dct2/__init__.py 139-143): write the message and
append a fresh response to the pending queue. -/
def Bolt.writeRequest (b : Bolt) (tag : Nat) (fields : List Value) : Option Bolt := do
  let bs ← writeMessageBytes tag fields
  pure { wire := b.wire.write bs, responses := b.responses ++ [freshResponse] }

/-- `Bolt.goodbye` (dct2/__init__.py 108-111): `_write_request(0x02)` then
`_send()`. -/
def Bolt.goodbye (b : Bolt) : Option Bolt := do
  let b1 ← b.writeRequest 0x02 []
  pure { b1 with wire := b1.wire.send }

/-- `Bolt.close` (dct2/__init__.py 79-84): no-op when closed or broken,
otherwise goodbye then close the wire. -/
def Bolt.close (b : Bolt) : Option Bolt :=
  if b.wire.closed || b.wire.broken then some b
  else do
    let b1 ← b.goodbye
    pure { b1 with wire := b1.wire.close }

/-- The nested `handshake` of `Bolt.open` (dct2/__init__.py 54-65): write the
preamble and the version block, flush, read 4 bytes, return
`(v[-1], v[-2])` = `(v[3], v[2])`. -/
def handshake (w : Wire) : Option ((Nat × Nat) × Wire) :=
  let w1 := w.write [0x60, 0x60, 0xB0, 0x17]
  let w2 := w1.write [0x00, 0x00, 0x00, 0x04, 0x00, 0x00, 0x00, 0x00,
                      0x00, 0x00, 0x00, 0x00, 0x00, 0x00, 0x00, 0x00]
  let w3 := w2.send
  match w3.readBytes 4 with
  | some ([_, _, b2, b3], w4) => some ((b3, b2), w4)
  | _ => none

/-- The handshake part of `Bolt.open` including the
`assert protocol_version == (4, 0)` check (dct2/__init__.py 67-68). -/
def openHandshake (w : Wire) : Option Wire :=
  match handshake w with
  | some ((maj, mnr), w4) => if maj = 4 ∧ mnr = 0 then some w4 else none
  | none => none

/-- `BoltResult` (dct2/__init__.py 171-202): the ordered responses of one
query and the `_complete` flag.  Note the class defines `__init__`, `append`,
`last`, `has_records` and `take_record` — and no `done` method. -/
structure BoltResult where
  items : List Response
  complete : Bool

/-- `BoltResponse.has_records` (dct2/__init__.py 219-220). -/
def Response.hasRecords (r : Response) : Bool := !r.records.isEmpty

/-- `BoltResult.has_records` (dct2/__init__.py 192-194). -/
def BoltResult.hasRecords (res : BoltResult) : Bool := res.items.any Response.hasRecords

/-- The loop of `BoltResult.take_record` (dct2/__init__.py 196-202): pop the
first record of the first response that has one (earlier responses first,
FIFO inside a response), `none` when every response is empty. -/
def takeFromItems : List Response → Option Value × List Response
  | [] => (none, [])
  | r :: rs =>
    match r.records with
    | v :: vs => (some v, { r with records := vs } :: rs)
    | [] =>
      let (o, rs1) := takeFromItems rs
      (o, r :: rs1)

/-- `BoltResult.take_record` on the result state. -/
def BoltResult.takeRecord (res : BoltResult) : Option Value × BoltResult :=
  let (o, items1) := takeFromItems res.items
  (o, { res with items := items1 })

/-- Python runtime errors surfaced by the session layer. -/
inductive PyErr where
  | attributeError : PyErr

/-- `Bolt.take` (dct2/__init__.py 131-137).  When the result has a buffered
record the guard short-circuits and `take_record` runs.  Otherwise the guard
evaluates `result.done()` — but `BoltResult` defines no `done` method (and
inherits none), so the attribute lookup raises `AttributeError` before any
draining can happen; the drain loop on lines 133-135 is unreachable. -/
def Bolt.take (_self : Bolt) (res : BoltResult) : Except PyErr (Option Value × BoltResult) :=
  if res.hasRecords then Except.ok res.takeRecord
  else Except.error PyErr.attributeError

/-- A map with sixteen distinct single-byte string keys: the smallest map the
tiny-map header cannot carry, forcing the `0xD8` header on encode. -/
def mapSixteen : Value :=
  Value.dict
    [(Value.str [48], Value.null), (Value.str [49], Value.null),
     (Value.str [50], Value.null), (Value.str [51], Value.null),
     (Value.str [52], Value.null), (Value.str [53], Value.null),
     (Value.str [54], Value.null), (Value.str [55], Value.null),
     (Value.str [56], Value.null), (Value.str [57], Value.null),
     (Value.str [58], Value.null), (Value.str [59], Value.null),
     (Value.str [60], Value.null), (Value.str [61], Value.null),
     (Value.str [62], Value.null), (Value.str [63], Value.null)]

/-- C1: the packer/unpacker round trip FAILS on the supported domain: a map
with sixteen (distinct, string-keyed) entries packs under the `0xD8` marker,
which the unpacker rejects (its 8/16/32-bit dictionary branches re-test the
list markers `0xD4`/`0xD5`/`0xD6` and are dead code), so `unpack(pack(v))`
raises instead of returning `v` — for any fuel, i.e. not an artifact of the
fuel bound. -/
theorem c1_roundtrip_fails_on_sixteen_entry_map :
    pack mapSixteen = some
      [0xD8, 16,
       0x81, 48, 0xC0, 0x81, 49, 0xC0, 0x81, 50, 0xC0, 0x81, 51, 0xC0,
       0x81, 52, 0xC0, 0x81, 53, 0xC0, 0x81, 54, 0xC0, 0x81, 55, 0xC0,
       0x81, 56, 0xC0, 0x81, 57, 0xC0, 0x81, 58, 0xC0, 0x81, 59, 0xC0,
       0x81, 60, 0xC0, 0x81, 61, 0xC0, 0x81, 62, 0xC0, 0x81, 63, 0xC0] ∧
    ∀ fuel,
      unpackV fuel
        [0xD8, 16,
         0x81, 48, 0xC0, 0x81, 49, 0xC0, 0x81, 50, 0xC0, 0x81, 51, 0xC0,
         0x81, 52, 0xC0, 0x81, 53, 0xC0, 0x81, 54, 0xC0, 0x81, 55, 0xC0,
         0x81, 56, 0xC0, 0x81, 57, 0xC0, 0x81, 58, 0xC0, 0x81, 59, 0xC0,
         0x81, 60, 0xC0, 0x81, 61, 0xC0, 0x81, 62, 0xC0, 0x81, 63, 0xC0] = none := by
  constructor
  · simp [mapSixteen, pack, packPairs, packStr, packHeader]
  · intro fuel
    cases fuel with
    | zero => rfl
    | succ n => rfl

/-- C2: the decoder REJECTS the map markers `0xD8`/`0xD9`/`0xDA` (falling
through to the unsupported-marker error, for any fuel), even though the
encoder emits them for maps of sixteen or more entries; by contrast a tiny
map header decodes fine. -/
theorem c2_map_length_markers_rejected :
    (∀ fuel, unpackV fuel [0xD8, 0x00] = none) ∧
    (∀ fuel, unpackV fuel [0xD9, 0x00, 0x00] = none) ∧
    (∀ fuel, unpackV fuel [0xDA, 0x00, 0x00, 0x00, 0x00] = none) ∧
    unpackV 1 [0xA0] = some (Value.dict [], []) ∧
    packHeader 16 0xA0 0xD8 0xD9 0xDA = some [0xD8, 16] := by
  refine ⟨fun fuel => ?_, fun fuel => ?_, fun fuel => ?_, rfl, rfl⟩ <;>
    cases fuel with
    | zero => rfl
    | succ n => rfl

/-- C3: `_fetch` does NOT handle FAILURE (0x7F), IGNORED (0x7E) or unknown
tags: the message is consumed and the session state (pending queue, head
status, history) is left completely unchanged, with no error raised —
contradicting the claimed store/mark/remove behaviour and the claimed
protocol error. -/
theorem c3_fetch_drops_non_success_non_record_tags :
    SessF.fetch ⟨[freshResponse], []⟩ 0x7F [Value.dict []] = some ⟨[freshResponse], []⟩ ∧
    SessF.fetch ⟨[freshResponse], []⟩ 0x7E [] = some ⟨[freshResponse], []⟩ ∧
    SessF.fetch ⟨[freshResponse], []⟩ 0x60 [] = some ⟨[freshResponse], []⟩ := by
  exact ⟨rfl, rfl, rfl⟩

/-- C4: `take` raises `AttributeError` whenever the result has no buffered
record, because the guard calls `result.done()` and `BoltResult` defines no
`done` method: on a fresh (incomplete) result it should drain inbound
messages, and on a complete drained result it should return `None`; both
instead fail. -/
theorem c4_take_raises_attribute_error :
    Bolt.take ⟨⟨[], [], [], false, false⟩, [freshResponse]⟩ ⟨[freshResponse], false⟩ =
      Except.error PyErr.attributeError ∧
    Bolt.take ⟨⟨[], [], [], false, false⟩, []⟩ ⟨[⟨[], 1, []⟩], true⟩ =
      Except.error PyErr.attributeError := by
  exact ⟨rfl, rfl⟩

/-- C5 counterexample: `goodbye()` does change the pending-response queue —
on a session with an empty queue it enqueues one (never-consumed) response,
so the claim that no Response is enqueued for GOODBYE is false. -/
theorem c5_goodbye_enqueues_a_response :
    (Bolt.goodbye ⟨⟨[], [], [], false, false⟩, []⟩).map (fun b => b.responses.length) =
      some 1 := by
  rfl

/-- C5 (amended): `close()` on an open, non-broken session writes only the
GOODBYE message `00 02 B0 02 00 00` (structure header `0xB0`, tag `0x02`,
framed as one 2-byte chunk plus the zero-length terminator), flushes it, then
closes the transport — but `goodbye()` DOES append exactly one fresh,
never-consumed Response to the pending-response queue. -/
theorem c5_close_writes_goodbye_and_enqueues
    (b : Bolt) (hc : b.wire.closed = false) (hb : b.wire.broken = false) :
    Bolt.close b = some
      { wire := { inStream := b.wire.inStream, outBuf := [],
                  sent := b.wire.sent ++ b.wire.outBuf ++ [0x00, 0x02, 0xB0, 0x02, 0x00, 0x00],
                  closed := true, broken := b.wire.broken },
        responses := b.responses ++ [freshResponse] } := by
  have hmsg : writeMessageBytes 0x02 [] = some [0x00, 0x02, 0xB0, 0x02, 0x00, 0x00] := rfl
  simp [Bolt.close, hc, hb, Bolt.goodbye, Bolt.writeRequest, hmsg,
    Wire.write, Wire.send, Wire.close, List.append_assoc]

/-- Closed witness for C5's amended theorem at a concrete open session. -/
theorem c5_close_writes_goodbye_and_enqueues_witness :
    Bolt.close ⟨⟨[], [], [], false, false⟩, []⟩ = some
      { wire := { inStream := [], outBuf := [],
                  sent := [0x00, 0x02, 0xB0, 0x02, 0x00, 0x00],
                  closed := true, broken := false },
        responses := [freshResponse] } :=
  c5_close_writes_goodbye_and_enqueues ⟨⟨[], [], [], false, false⟩, []⟩ rfl rfl

/-- C6: minimal encoding.  For every integer the packer emits the smallest
legal width — tiny byte for `-16 ≤ v < 128`, `0xC8`+i8 for `-128 ≤ v < -16`,
`0xC9`+i16 for the remaining 16-bit values, `0xCA`+i32, `0xCB`+i64 — and
fails exactly outside `[-2^63, 2^63)`; every container header (string, list,
map markers passed as `t`/`s`/`m`/`l`) uses the smallest of the tiny
(`< 16`), 8-bit (`< 256`), 16-bit (`< 65536`) and 32-bit (`< 2^32`) length
forms and fails exactly for lengths of `2^32` and above. -/
theorem c6_minimal_encoding (v : Int) (n t s m l : Nat) :
    (-16 ≤ v → v < 128 → packInt v = some (sbe 1 v)) ∧
    (-128 ≤ v → v < -16 → packInt v = some (0xC8 :: sbe 1 v)) ∧
    ((-32768 ≤ v ∧ v < -128) ∨ (128 ≤ v ∧ v < 32768) →
      packInt v = some (0xC9 :: sbe 2 v)) ∧
    ((-2147483648 ≤ v ∧ v < -32768) ∨ (32768 ≤ v ∧ v < 2147483648) →
      packInt v = some (0xCA :: sbe 4 v)) ∧
    ((-9223372036854775808 ≤ v ∧ v < -2147483648) ∨
        (2147483648 ≤ v ∧ v < 9223372036854775808) →
      packInt v = some (0xCB :: sbe 8 v)) ∧
    (packInt v = none ↔ v < -9223372036854775808 ∨ 9223372036854775808 ≤ v) ∧
    (n < 16 → packHeader n t s m l = some [t + n]) ∧
    (16 ≤ n → n < 256 → packHeader n t s m l = some [s, n]) ∧
    (256 ≤ n → n < 65536 → packHeader n t s m l = some (m :: beBytes 2 n)) ∧
    (65536 ≤ n → n < 4294967296 → packHeader n t s m l = some (l :: beBytes 4 n)) ∧
    (packHeader n t s m l = none ↔ 4294967296 ≤ n) := by
  refine ⟨fun h1 h2 => ?_, fun h1 h2 => ?_, fun h => ?_, fun h => ?_, fun h => ?_, ?_,
    fun h1 => ?_, fun h1 h2 => ?_, fun h1 h2 => ?_, fun h1 h2 => ?_, ?_⟩ <;>
    simp only [packInt, packHeader] <;> split_ifs <;>
    first
      | rfl
      | omega
      | (simp only [Option.some_ne_none, reduceCtorEq, false_iff, true_iff, not_or, not_lt,
          not_le]
         omega)

/-- Closed witness for C6 at the boundary-interior values 1000 (16-bit) and
300 (16-bit container length). -/
theorem c6_minimal_encoding_witness :
    packInt 1000 = some [0xC9, 0x03, 0xE8] ∧
    packHeader 300 0x80 0xD0 0xD1 0xD2 = some [0xD1, 0x01, 0x2C] :=
  ⟨(c6_minimal_encoding 1000 0 0 0 0 0).2.2.1 (Or.inr ⟨by omega, by omega⟩),
   (c6_minimal_encoding 0 300 0x80 0xD0 0xD1 0xD2).2.2.2.2.2.2.2.2.1 (by omega) (by omega)⟩

/-- C9: the handshake of `open()` writes exactly the preamble `60 60 B0 17`
followed by the version block `00 00 00 04` and twelve zero bytes, flushes
them, consumes exactly 4 response bytes, and the version check succeeds
exactly when `(bytes[3], bytes[2]) = (4, 0)`. -/
theorem c9_handshake_bytes (w : Wire) (b0 b1 b2 b3 : Nat) (rest : List Nat)
    (h : w.inStream = b0 :: b1 :: b2 :: b3 :: rest) :
    handshake w = some ((b3, b2),
      { inStream := rest, outBuf := [],
        sent := w.sent ++ w.outBuf ++
          [0x60, 0x60, 0xB0, 0x17,
           0x00, 0x00, 0x00, 0x04, 0x00, 0x00, 0x00, 0x00,
           0x00, 0x00, 0x00, 0x00, 0x00, 0x00, 0x00, 0x00],
        closed := w.closed, broken := w.broken }) ∧
    ((openHandshake w).isSome = true ↔ (b3 = 4 ∧ b2 = 0)) := by
  have hh : handshake w = some ((b3, b2),
      { inStream := rest, outBuf := [],
        sent := w.sent ++ w.outBuf ++
          [0x60, 0x60, 0xB0, 0x17,
           0x00, 0x00, 0x00, 0x04, 0x00, 0x00, 0x00, 0x00,
           0x00, 0x00, 0x00, 0x00, 0x00, 0x00, 0x00, 0x00],
        closed := w.closed, broken := w.broken }) := by
    simp [handshake, Wire.write, Wire.send, Wire.readBytes, h]
  refine ⟨hh, ?_⟩
  simp only [openHandshake, hh]
  split_ifs with hcond
  · simpa using hcond
  · simpa using hcond

/-- Closed witness for C9 on a wire whose server reply is `00 00 00 04`. -/
theorem c9_handshake_bytes_witness :
    handshake ⟨[0x00, 0x00, 0x00, 0x04], [], [], false, false⟩ = some ((4, 0),
      { inStream := [], outBuf := [],
        sent := [0x60, 0x60, 0xB0, 0x17,
                 0x00, 0x00, 0x00, 0x04, 0x00, 0x00, 0x00, 0x00,
                 0x00, 0x00, 0x00, 0x00, 0x00, 0x00, 0x00, 0x00],
        closed := false, broken := false }) ∧
    ((openHandshake ⟨[0x00, 0x00, 0x00, 0x04], [], [], false, false⟩).isSome = true ↔
      ((4 : Nat) = 4 ∧ (0 : Nat) = 0)) :=
  c9_handshake_bytes ⟨[0x00, 0x00, 0x00, 0x04], [], [], false, false⟩ 0 0 0 4 [] rfl

/-- Auxiliary: unpacking `k` values yields exactly `k` values. -/
theorem unpackMany_length (u : List Nat → Option (Value × List Nat)) :
    ∀ (k : Nat) (bs : List Nat) (vs : List Value) (r : List Nat),
      unpackMany u k bs = some (vs, r) → vs.length = k := by
  intro k
  induction k with
  | zero =>
    intro bs vs r h
    simp [unpackMany] at h
    simp [h.1]
  | succ k ih =>
    intro bs vs r h
    unfold unpackMany at h
    cases hu : u bs with
    | none => simp [hu] at h
    | some p =>
      obtain ⟨v, bs1⟩ := p
      cases hm : unpackMany u k bs1 with
      | none => simp [hu, hm] at h
      | some q =>
        obtain ⟨vs1, bs2⟩ := q
        simp [hu, hm] at h
        have hl := ih bs1 vs1 bs2 hm
        rw [← h.1]
        simp [hl]

/-- C10: `read_message` takes the field count of a framed payload from the
LOW NIBBLE of its first byte (`divmod(byte, 0x10)`), never checking the high
nibble: two first bytes with the same low nibble parse identically (so `0x0n`
or `0xCn` are accepted exactly like `0xBn`), and a successful parse returns
exactly `first_byte mod 16` fields, hence never more than 15. -/
theorem c10_field_count_low_nibble (b c tag : Nat) (body : List Nat) :
    (b % 16 = c % 16 →
      parseMessagePayload (b :: tag :: body) = parseMessagePayload (c :: tag :: body)) ∧
    (∀ t vs, parseMessagePayload (b :: tag :: body) = some (t, vs) →
      t = tag ∧ vs.length = b % 16 ∧ vs.length ≤ 15) := by
  constructor
  · intro h
    simp only [parseMessagePayload]
    rw [h]
  · intro t vs hp
    simp only [parseMessagePayload] at hp
    cases hm : unpackMany (unpackV (body.length + 1)) (b % 16) body with
    | none => rw [hm] at hp; exact absurd hp (by simp)
    | some q =>
      obtain ⟨vs1, r⟩ := q
      rw [hm] at hp
      simp at hp
      have hl := unpackMany_length (unpackV (body.length + 1)) (b % 16) body vs1 r hm
      have hb : b % 16 < 16 := Nat.mod_lt _ (by omega)
      refine ⟨hp.1.symm, ?_, ?_⟩ <;> rw [← hp.2] <;> omega

/-- Closed witness for C10: first bytes `0xC1` and `0x01` (same low nibble)
parse identically, and the parse of `C1 70 C0` has exactly one field. -/
theorem c10_field_count_low_nibble_witness :
    parseMessagePayload [0xC1, 0x70, 0xC0] = parseMessagePayload [0x01, 0x70, 0xC0] ∧
    ((0x70 : Nat) = 0x70 ∧ [Value.null].length = 0xC1 % 16 ∧ [Value.null].length ≤ 15) :=
  ⟨(c10_field_count_low_nibble 0xC1 0x01 0x70 [0xC0]).1 rfl,
   (c10_field_count_low_nibble 0xC1 0x01 0x70 [0xC0]).2 0x70 [Value.null] rfl⟩

/-- Auxiliary: reading exactly the length of a list laid at the head of a
stream returns that list and the rest. -/
theorem readN_append (xs ys : List Nat) : readN xs.length (xs ++ ys) = some (xs, ys) := by
  simp [readN]

/-- Auxiliary: a 16-bit big-endian length prefix decodes to the length it
encodes. -/
theorem fromBe_beBytes_two (n : Nat) (h : n < 65536) : fromBe (beBytes 2 n) = n := by
  have h2 : beBytes 2 n = [n / 256 % 256, n % 256] := rfl
  have h3 : fromBe [n / 256 % 256, n % 256] = (0 * 256 + n / 256 % 256) * 256 + n % 256 := rfl
  rw [h2, h3]
  omega

/-- Auxiliary: the chunking loop of a nonempty payload emits the first
32767-byte slice and then chunks the remainder. -/
theorem chunkPayloads_cons (p : List Nat) (hp : p ≠ []) :
    chunkPayloads p = p.take 32767 :: chunkPayloads (p.drop 32767) := by
  have hlen : p.length ≠ 0 := fun h => hp (List.length_eq_zero.mp h)
  have hcount : (p.length + 32766) / 32767 = ((p.drop 32767).length + 32766) / 32767 + 1 := by
    simp only [List.length_drop]
    omega
  unfold chunkPayloads
  rw [hcount, List.range_succ_eq_map]
  simp only [List.map_cons, List.map_map]
  congr 1
  refine List.map_congr_left ?_
  intro i _
  simp only [Function.comp_apply, List.drop_drop]
  congr 2
  omega

/-- Auxiliary: one payload contributes one more chunk than its tail beyond
the first slice. -/
theorem numChunks_cons (p : List Nat) (hp : p ≠ []) :
    numChunks p = numChunks (p.drop 32767) + 1 := by
  have hlen : p.length ≠ 0 := fun h => hp (List.length_eq_zero.mp h)
  simp only [numChunks, List.length_drop]
  omega

/-- Auxiliary: the wire bytes of a nonempty payload start with its first
chunk. -/
theorem chunkStream_cons (p : List Nat) (hp : p ≠ []) :
    chunkStream p = writeChunk (p.take 32767) ++ chunkStream (p.drop 32767) := by
  unfold chunkStream
  rw [chunkPayloads_cons p hp]
  simp [List.append_assoc]

/-- Auxiliary: a `k`-byte big-endian encoding has `k` bytes. -/
theorem beBytes_length (k : Nat) : ∀ n : Nat, (beBytes k n).length = k := by
  induction k with
  | zero => intro n; rfl
  | succ k ih =>
    intro n
    simp only [beBytes, List.length_append, List.length_singleton, ih]

/-- Auxiliary: total length of the framed bytes of a payload. -/
theorem chunkStream_length (fuel : Nat) :
    ∀ p : List Nat, numChunks p < fuel →
      (chunkStream p).length = p.length + 2 * numChunks p + 2 := by
  induction fuel with
  | zero => intro p h; omega
  | succ fuel ih =>
    intro p h
    by_cases hp : p = []
    · subst hp
      rfl
    · have hstep := numChunks_cons p hp
      rw [chunkStream_cons p hp]
      have hn : numChunks (p.drop 32767) < fuel := by omega
      have hrec := ih (p.drop 32767) hn
      have hlen : p.length ≠ 0 := fun h0 => hp (List.length_eq_zero.mp h0)
      simp only [List.length_append, writeChunk, beBytes_length, List.length_take,
        List.length_drop] at hrec ⊢
      omega

/-- Auxiliary: the reader inverts the chunker — reading one framed payload
from the writer's byte stream returns the accumulated bytes plus the payload
and leaves the rest of the stream unread. -/
theorem readChunks_chunkStream (fuel : Nat) :
    ∀ p acc rest : List Nat, numChunks p < fuel →
      readChunks fuel acc (chunkStream p ++ rest) = some (acc ++ p, rest) := by
  induction fuel with
  | zero => intro p acc rest h; omega
  | succ fuel ih =>
    intro p acc rest h
    by_cases hp : p = []
    · subst hp
      have h1 : readN 2 (chunkStream [] ++ rest) = some ([0, 0], rest) :=
        readN_append [0, 0] rest
      simp only [readChunks, h1, List.append_nil]
      have hz : fromBe [0, 0] = 0 := rfl
      rw [hz]
      simp
    · have hstep := numChunks_cons p hp
      have hlen0 : p.length ≠ 0 := fun h0 => hp (List.length_eq_zero.mp h0)
      have hLlen : (p.take 32767).length = min 32767 p.length := List.length_take _ _
      have hLlt : (p.take 32767).length < 65536 := by rw [hLlen]; omega
      have hLne : (p.take 32767).length ≠ 0 := by rw [hLlen]; omega
      rw [chunkStream_cons p hp, List.append_assoc]
      have hw : writeChunk (p.take 32767) ++ (chunkStream (p.drop 32767) ++ rest) =
          beBytes 2 (p.take 32767).length ++
            (p.take 32767 ++ (chunkStream (p.drop 32767) ++ rest)) := by
        simp [writeChunk]
      rw [hw]
      have h1 : readN 2 (beBytes 2 (p.take 32767).length ++
          (p.take 32767 ++ (chunkStream (p.drop 32767) ++ rest))) =
          some (beBytes 2 (p.take 32767).length,
            p.take 32767 ++ (chunkStream (p.drop 32767) ++ rest)) := by
        have hr := readN_append (beBytes 2 (p.take 32767).length)
          (p.take 32767 ++ (chunkStream (p.drop 32767) ++ rest))
        rwa [beBytes_length] at hr
      simp only [readChunks, h1]
      rw [fromBe_beBytes_two _ hLlt, if_neg hLne]
      have h2 : readN (p.take 32767).length
          (p.take 32767 ++ (chunkStream (p.drop 32767) ++ rest)) =
          some (p.take 32767, chunkStream (p.drop 32767) ++ rest) := readN_append _ _
      simp only [h2]
      have hrec := ih (p.drop 32767) (acc ++ p.take 32767) rest (by omega)
      rw [hrec, List.append_assoc, List.take_append_drop]

/-- C7: chunked-framing round trip.  For every payload the writer emits the
length-prefixed chunk payloads followed by exactly one zero-length chunk,
every emitted chunk carries at most 32767 bytes, the reader accumulates
chunks until the zero-length one and returns exactly the original payload
(leaving any following bytes unread), and a 40000-byte payload produces the
chunk lengths 32767, 7233, 0. -/
theorem c7_chunking_round_trip (p rest : List Nat) :
    readMessagePayload (chunkStream p ++ rest) = some (p, rest) ∧
    (∀ c ∈ chunkPayloads p, c.length ≤ 32767) ∧
    (p.length = 40000 → emittedChunkSizes p = [32767, 7233, 0]) := by
  refine ⟨?_, ?_, ?_⟩
  · have hfuel : numChunks p < (chunkStream p ++ rest).length + 1 := by
      have hl := chunkStream_length (numChunks p + 1) p (by omega)
      simp only [List.length_append]
      omega
    exact readChunks_chunkStream _ p [] rest hfuel
  · intro c hc
    simp only [chunkPayloads, List.mem_map, List.mem_range] at hc
    obtain ⟨i, _, rfl⟩ := hc
    simp [List.length_take]
  · intro hlen
    have hp1 : p ≠ [] := by
      intro h0
      rw [h0] at hlen
      simp at hlen
    have hd1 : (p.drop 32767).length = 7233 := by
      simp [List.length_drop, hlen]
    have hp2 : p.drop 32767 ≠ [] := by
      intro h0
      rw [h0] at hd1
      simp at hd1
    have hd2 : (p.drop 32767).drop 32767 = [] := by
      have : ((p.drop 32767).drop 32767).length = 0 := by
        simp [List.length_drop, hlen]
      exact List.length_eq_zero.mp this
    rw [emittedChunkSizes, chunkPayloads_cons p hp1, chunkPayloads_cons _ hp2, hd2]
    have hc0 : chunkPayloads ([] : List Nat) = [] := rfl
    rw [hc0]
    simp [List.length_take, hlen, hd1]

/-- Closed witness for C7 at the 40000-byte all-zero payload. -/
theorem c7_chunking_round_trip_witness :
    readMessagePayload (chunkStream (List.replicate 40000 0) ++ []) =
      some (List.replicate 40000 0, []) ∧
    emittedChunkSizes (List.replicate 40000 0) = [32767, 7233, 0] :=
  ⟨(c7_chunking_round_trip (List.replicate 40000 0) []).1,
   (c7_chunking_round_trip (List.replicate 40000 0) []).2.2 (List.length_replicate 40000 0)⟩

/-- A response is a later snapshot of another: same records in the same
order, possibly with more appended at the tail (the only way `_fetch` ever
touches the record queue). -/
def assembledFrom (r r2 : Response) : Prop := ∃ ext, r2.records = r.records ++ ext

/-- Auxiliary: every response is trivially assembled from itself. -/
theorem assembledFrom_refl (r : Response) : assembledFrom r r := ⟨[], by simp⟩

/-- Auxiliary: `assembledFrom` holds pointwise between a list and itself. -/
theorem forall2_assembledFrom_refl : ∀ l : List Response, List.Forall₂ assembledFrom l l
  | [] => List.Forall₂.nil
  | r :: l => List.Forall₂.cons (assembledFrom_refl r) (forall2_assembledFrom_refl l)

/-- The FIFO invariant of the pending-response queue relative to the initial
queue `q`: some prefix of `q` (of length `k`) has been finished, in order,
each finished response terminal; the rest of `q` is still queued in order,
all pending, and only the current head may differ from its original by
appended records — the tail is untouched. -/
def fifoInv (q : List Response) (st : SessF) : Prop :=
  ∃ k, k ≤ q.length ∧
    st.finished.length = k ∧
    List.Forall₂ assembledFrom (q.take k) st.finished ∧
    (∀ r ∈ st.finished, r.status = 1) ∧
    List.Forall₂ assembledFrom (q.drop k) st.queue ∧
    (∀ r ∈ st.queue, r.status = 0) ∧
    st.queue.drop 1 = q.drop (k + 1)

/-- Auxiliary: one `_fetch` step preserves the FIFO invariant. -/
theorem fetch_preserves_fifoInv (q : List Response) (st st' : SessF) (tag : Nat)
    (fields : List Value) (hf : SessF.fetch st tag fields = some st')
    (hinv : fifoInv q st) : fifoInv q st' := by
  obtain ⟨k, hk, hlen, hfin, hdone, hqrel, hq0, htail⟩ := hinv
  unfold SessF.fetch at hf
  cases hq : st.queue with
  | nil => rw [hq] at hf; simp at hf
  | cons r rest =>
    rw [hq] at hf hqrel hq0 htail
    simp only [List.drop_succ_cons, List.drop_zero] at htail
    rw [List.forall₂_cons_right_iff] at hqrel
    obtain ⟨a, l1, har, hrel1, hdk⟩ := hqrel
    have hklt : k < q.length := by
      have : (q.drop k).length = l1.length + 1 := by rw [hdk]; simp
      simp only [List.length_drop] at this
      omega
    have hget : q[k]? = some a := by
      have hgd := List.getElem?_drop q k 0
      rw [hdk] at hgd
      simpa using hgd.symm
    have htake1 : q.take (k + 1) = q.take k ++ [a] := by
      rw [List.take_succ, hget]
      rfl
    split_ifs at hf with h70 h71
    · cases fields with
      | nil => simp at hf
      | cons f fs =>
        cases f with
        | null => simp at hf
        | int i => simp at hf
        | str s => simp at hf
        | list xs => simp at hf
        | dict ps =>
          simp only [Option.some.injEq] at hf
          subst hf
          obtain ⟨ext, hext⟩ := har
          refine ⟨k + 1, by omega, by simp [hlen], ?_, ?_, ?_, ?_, ?_⟩
          · rw [htake1]
            refine List.rel_append hfin (List.Forall₂.cons ⟨ext, ?_⟩ List.Forall₂.nil)
            simpa using hext
          · intro x hx
            simp only [List.mem_append, List.mem_singleton] at hx
            rcases hx with hx | hx
            · exact hdone x hx
            · rw [hx]
          · rw [← htail]
            exact forall2_assembledFrom_refl rest
          · intro x hx
            exact hq0 x (List.mem_cons_of_mem r hx)
          · rw [htail, List.drop_drop]
    · cases fields with
      | nil => simp at hf
      | cons v fs =>
        simp only [Option.some.injEq] at hf
        subst hf
        obtain ⟨ext, hext⟩ := har
        refine ⟨k, hk, hlen, hfin, hdone, ?_, ?_, ?_⟩
        · rw [hdk]
          refine List.Forall₂.cons ⟨ext ++ [v], ?_⟩ hrel1
          simp [hext]
        · intro x hx
          simp only [List.mem_cons] at hx
          rcases hx with hx | hx
          · rw [hx]
            exact hq0 r (List.mem_cons_self r rest)
          · exact hq0 x (List.mem_cons_of_mem r hx)
        · simpa using htail
    · simp only [Option.some.injEq] at hf
      subst hf
      refine ⟨k, hk, hlen, hfin, hdone, ?_, ?_, ?_⟩
      · rw [hq, hdk]
        exact List.Forall₂.cons har hrel1
      · rw [hq]
        exact hq0
      · rw [hq]
        simpa using htail

/-- Auxiliary: any run of `_fetch` steps preserves the FIFO invariant. -/
theorem runF_preserves_fifoInv (ms : List (Nat × List Value)) :
    ∀ (q : List Response) (st st' : SessF),
      runF ms st = some st' → fifoInv q st → fifoInv q st' := by
  induction ms with
  | nil =>
    intro q st st' h hinv
    unfold runF at h
    simp only [Option.some.injEq] at h
    rwa [← h]
  | cons m ms ih =>
    intro q st st' h hinv
    unfold runF at h
    cases hf : SessF.fetch st m.1 m.2 with
    | none => rw [hf] at h; simp at h
    | some st1 =>
      rw [hf] at h
      exact ih q st1 st' h (fetch_preserves_fifoInv q st st1 m.1 m.2 hf hinv)

/-- Auxiliary: a freshly written queue of pending responses satisfies the
FIFO invariant with nothing finished. -/
theorem fifoInv_init (q : List Response) (h0 : ∀ r ∈ q, r.status = 0) :
    fifoInv q ⟨q, []⟩ :=
  ⟨0, Nat.zero_le _, rfl,
   by simp only [List.take_zero]; exact List.Forall₂.nil,
   by intro x hx; simp at hx,
   by simp only [List.drop_zero]; exact forall2_assembledFrom_refl q,
   h0, rfl⟩

/-- C8: session FIFO invariant.  (1) A written request appends exactly one
fresh pending response at the queue tail, so queue order is request order.
(2) Every successful `_fetch` step applies to the HEAD of the queue: either
the head is removed and lands in the finished history terminal (status 1),
or the queue keeps its shape with the head possibly extended by a record,
its status unchanged, and the tail untouched — i.e. a response leaves the
queue exactly when it becomes terminal.  (3) Over any run of inbound
messages from a queue of pending responses, the finished responses are
exactly an initial prefix of the queue, in order, all terminal; the rest are
still queued, in order and pending, with only the current head differing
from its original by appended records. -/
theorem c8_fifo_correlation :
    (∀ (b b2 : Bolt) (tag : Nat) (fields : List Value),
        Bolt.writeRequest b tag fields = some b2 →
        b2.responses = b.responses ++ [freshResponse]) ∧
    (∀ (st st' : SessF) (tag : Nat) (fields : List Value),
        SessF.fetch st tag fields = some st' →
        ∃ hd tl, st.queue = hd :: tl ∧
          ((∃ r2, st'.queue = tl ∧ st'.finished = st.finished ++ [r2] ∧
              r2.status = 1 ∧ assembledFrom hd r2) ∨
           (∃ hd2, st'.queue = hd2 :: tl ∧ st'.finished = st.finished ∧
              hd2.status = hd.status ∧ assembledFrom hd hd2))) ∧
    (∀ (ms : List (Nat × List Value)) (q : List Response) (st' : SessF),
        (∀ r ∈ q, r.status = 0) →
        runF ms ⟨q, []⟩ = some st' →
        ∃ k, k ≤ q.length ∧
          st'.finished.length = k ∧
          List.Forall₂ assembledFrom (q.take k) st'.finished ∧
          (∀ r ∈ st'.finished, r.status = 1) ∧
          List.Forall₂ assembledFrom (q.drop k) st'.queue ∧
          (∀ r ∈ st'.queue, r.status = 0) ∧
          st'.queue.drop 1 = q.drop (k + 1)) := by
  refine ⟨?_, ?_, ?_⟩
  · intro b b2 tag fields h
    unfold Bolt.writeRequest at h
    cases hm : writeMessageBytes tag fields with
    | none => rw [hm] at h; simp at h
    | some bs =>
      rw [hm] at h
      have h2 : Bolt.mk (b.wire.write bs) (b.responses ++ [freshResponse]) = b2 :=
        Option.some.inj h
      rw [← h2]
  · intro st st' tag fields hf
    unfold SessF.fetch at hf
    cases hq : st.queue with
    | nil => rw [hq] at hf; simp at hf
    | cons r rest =>
      rw [hq] at hf
      refine ⟨r, rest, rfl, ?_⟩
      split_ifs at hf with h70 h71
      · cases fields with
        | nil => simp at hf
        | cons f fs =>
          cases f with
          | null => simp at hf
          | int i => simp at hf
          | str s => simp at hf
          | list xs => simp at hf
          | dict ps =>
            simp only [Option.some.injEq] at hf
            subst hf
            exact Or.inl ⟨_, rfl, rfl, rfl, ⟨[], by simp⟩⟩
      · cases fields with
        | nil => simp at hf
        | cons v fs =>
          simp only [Option.some.injEq] at hf
          subst hf
          exact Or.inr ⟨_, rfl, rfl, rfl, ⟨[v], rfl⟩⟩
      · simp only [Option.some.injEq] at hf
        subst hf
        exact Or.inr ⟨r, hq, rfl, rfl, assembledFrom_refl r⟩
  · intro ms q st' h0 hrun
    exact runF_preserves_fifoInv ms q ⟨q, []⟩ st' hrun (fifoInv_init q h0)

/-- Closed witness for C8: one written GOODBYE-tagged request appends one
fresh response; one SUCCESS fetch pops the head terminal; a one-message run
finishes the whole one-element queue in order. -/
theorem c8_fifo_correlation_witness :
    (Bolt.mk (Wire.mk [] [0x00, 0x02, 0xB0, 0x02, 0x00, 0x00] [] false false)
        [freshResponse]).responses = ([] : List Response) ++ [freshResponse] ∧
    (∃ hd tl, (SessF.mk [freshResponse] []).queue = hd :: tl ∧
      ((∃ r2, (SessF.mk [] [Response.mk [] 1 []]).queue = tl ∧
          (SessF.mk [] [Response.mk [] 1 []]).finished =
            (SessF.mk [freshResponse] []).finished ++ [r2] ∧
          r2.status = 1 ∧ assembledFrom hd r2) ∨
       (∃ hd2, (SessF.mk [] [Response.mk [] 1 []]).queue = hd2 :: tl ∧
          (SessF.mk [] [Response.mk [] 1 []]).finished =
            (SessF.mk [freshResponse] []).finished ∧
          hd2.status = hd.status ∧ assembledFrom hd hd2))) ∧
    (∃ k, k ≤ [freshResponse].length ∧
      (SessF.mk [] [Response.mk [] 1 []]).finished.length = k ∧
      List.Forall₂ assembledFrom ([freshResponse].take k)
        (SessF.mk [] [Response.mk [] 1 []]).finished ∧
      (∀ r ∈ (SessF.mk [] [Response.mk [] 1 []]).finished, r.status = 1) ∧
      List.Forall₂ assembledFrom ([freshResponse].drop k)
        (SessF.mk [] [Response.mk [] 1 []]).queue ∧
      (∀ r ∈ (SessF.mk [] [Response.mk [] 1 []]).queue, r.status = 0) ∧
      (SessF.mk [] [Response.mk [] 1 []]).queue.drop 1 =
        [freshResponse].drop (k + 1)) :=
  ⟨c8_fifo_correlation.1 (Bolt.mk (Wire.mk [] [] [] false false) [])
      (Bolt.mk (Wire.mk [] [0x00, 0x02, 0xB0, 0x02, 0x00, 0x00] [] false false)
        [freshResponse]) 0x02 [] rfl,
   c8_fifo_correlation.2.1 (SessF.mk [freshResponse] [])
      (SessF.mk [] [Response.mk [] 1 []]) 0x70 [Value.dict []] rfl,
   c8_fifo_correlation.2.2 [(0x70, [Value.dict []])] [freshResponse]
      (SessF.mk [] [Response.mk [] 1 []])
      (fun r hr => by
        simp only [List.mem_singleton] at hr
        rw [hr]
        rfl)
      rfl⟩
